import Mathlib

/-!
A shallow embedding of the stochastic-process generators of the `stocproc`
package (files `stocproc/stocproc.py` and `stocproc/class_stocproc.py`),
together with theorems settling the frozen claims about them.

Conventions of the embedding:
* numpy 1-D arrays are `List ℂ` (or `List ℝ`), 2-D arrays are `NpMatrix`
  (dimensions plus an entry function);
* Python exceptions are values of `Err`, fallible code returns `Except Err _`;
* absent Python attributes (never assigned on an instance) are `Option`
  fields holding `none`;
* external collaborators that are not part of this repository's sources
  (the scipy spline, the Fredholm eigen-solver, the quadrature rules of
  `method_kle`, the compiled synthesis kernel `stocproc_c` and the random
  stream behind `np.random`) enter as explicit function parameters or as
  definitions whose doc comment starts with `Modelled from the spec:`.
-/

/-- Kinds of run-time failure that the embedded code can raise.
`notReady` is the guarded RuntimeError of `_absStocProc.__call__`
("StocProc_FFT has NO random data"); `shapeMismatch` is numpy's ValueError
for incompatible 1-D shapes; `attributeError` is Python's AttributeError for
reading an attribute that was never assigned; `typeErr` is the unguarded
error an external collaborator raises when handed `None` instead of data. -/
inductive Err where
  | notReady : Err
  | shapeMismatch : Err
  | attributeError : Err
  | typeErr : Err
deriving DecidableEq, Repr

/-- A dense 2-D numpy array: row and column counts plus an entry function. -/
structure NpMatrix where
  rows : ℕ
  cols : ℕ
  entry : ℕ → ℕ → ℂ

/-- Elementwise product of two 1-D numpy arrays, with numpy's broadcasting
rule: equal lengths multiply pointwise, a length-one operand is broadcast
against the other, and any other combination raises a shape error. -/
def npMul (a b : List ℂ) : Except Err (List ℂ) :=
  if a.length = b.length then .ok (List.zipWith (· * ·) a b)
  else if a.length = 1 then .ok (b.map (fun x => a.headI * x))
  else if b.length = 1 then .ok (a.map (fun x => x * b.headI))
  else .error .shapeMismatch

/-- `np.tensordot(y, M, axes=([0],[1]))` for a vector `y` and matrix `M`:
contracts `y` with the columns of `M`, requiring `y.length = M.cols`
(tensordot does not broadcast), and returns the vector of row sums. -/
noncomputable def tensordot1 (y : List ℂ) (M : NpMatrix) : Except Err (List ℂ) :=
  if y.length = M.cols then
    .ok ((List.range M.rows).map (fun g => ∑ i ∈ Finset.range M.cols, y.getD i 0 * M.entry g i))
  else .error .shapeMismatch

/-- `np.fft.fft`: the forward discrete Fourier transform,
`X_k = Σ_n x_n · exp(-2πi·k·n/N)` with `N = x.length`. -/
noncomputable def npFFT (x : List ℂ) : List ℂ :=
  (List.range x.length).map (fun k : ℕ =>
    ((List.range x.length).map (fun n : ℕ =>
      x.getD n 0
        * Complex.exp (-2 * Real.pi * Complex.I * (k : ℂ) * (n : ℂ) / (x.length : ℂ)))).sum)

/-- The constant `1/np.sqrt(2)` stored as `self._one_over_sqrt_2` by
`_absStocProc.__init__` and used as the `scale` of the normal draw. -/
noncomputable def one_over_sqrt_2 : ℝ := 1 / Real.sqrt 2

/-- `np.random.normal(scale=σ, size=2*m).view(np.complex)`: the external
Gaussian sampler delivers a stream `g` of unit-variance real draws; scaling
by `σ` and viewing as complex pairs consecutive entries into
`Y_i = σ·g_{2i} + i·σ·g_{2i+1}`. -/
def drawComplex (g : ℕ → ℝ) (σ : ℝ) (m : ℕ) : List ℂ :=
  (List.range m).map (fun i => ⟨σ * g (2 * i), σ * g (2 * i + 1)⟩)

/-- `np.linspace(a, b, n)` as a function of the index (`n` equidistant
points from `a` to `b` inclusive). -/
noncomputable def linspace (a b : ℝ) (n : ℕ) : ℕ → ℝ :=
  fun j => a + (b - a) * j / ((n : ℝ) - 1)

/-- `ComplexInterpolatedUnivariateSpline` (class_stocproc.py): a pair of
real-valued splines for the real and the imaginary part. -/
structure CIUS where
  re_spline : ℝ → ℝ
  im_spline : ℝ → ℝ

/-- The type of the external scipy `InterpolatedUnivariateSpline`
constructor: abscissae, ordinates and the polynomial degree give a
real-valued function. -/
abbrev IusT := List ℝ → List ℝ → ℕ → (ℝ → ℝ)

/-- Modelled from the spec: `tools.ComplexInterpolatedUnivariateSpline`
(module `tools` is not under src); per the spec it interpolates real and
imaginary parts independently with the external degree-`k` spline, exactly
as the in-src `class_stocproc.ComplexInterpolatedUnivariateSpline` does. -/
def mkCIUS (ius : IusT) (x : List ℝ) (y : List ℂ) (k : ℕ) : CIUS :=
  ⟨ius x (y.map Complex.re) k, ius x (y.map Complex.im) k⟩

/-- `class_stocproc.ComplexInterpolatedUnivariateSpline.__init__`: same
construction, except that the accepted argument `k` is not forwarded to the
scipy constructor, whose default degree 3 is used instead. -/
def mkCIUSold (ius : IusT) (x : List ℝ) (y : List ℂ) : CIUS :=
  ⟨ius x (y.map Complex.re) 3, ius x (y.map Complex.im) 3⟩

/-- `ComplexInterpolatedUnivariateSpline.__call__`:
`re_spline(t) + 1j*im_spline(t)`. -/
noncomputable def CIUS.eval (c : CIUS) (t : ℝ) : ℂ :=
  (c.re_spline t : ℂ) + Complex.I * (c.im_spline t : ℂ)

/-- The mutable state installed by `_absStocProc.__init__` (stocproc.py):
time horizon, grid size, time grid, current realization `_z`, cached
interpolator, spline degree `_k`, stored seed, and the process counter. -/
structure ProcState where
  t_max : ℝ
  num_grid_points : ℕ
  t : ℕ → ℝ
  z : Option (List ℂ)
  interpolator : Option CIUS
  k : ℕ
  seed : Option ℤ
  proc_cnt : ℕ

/-- An engine: the shared base state plus the method-specific data `D`. -/
structure Engine (D : Type) where
  base : ProcState
  data : D

/-- `_absStocProc.__init__(t_max, num_grid_points, seed, k)`:
`self.t = np.linspace(0, t_max, num_grid_points)`, `self._z = None`,
`self._interpolator = None`, `self._proc_cnt = 0`. -/
noncomputable def baseInit (t_max : ℝ) (num_grid_points : ℕ) (seed : Option ℤ) (k : ℕ) :
    ProcState :=
  { t_max := t_max
    num_grid_points := num_grid_points
    t := linspace 0 t_max num_grid_points
    z := none
    interpolator := none
    k := k
    seed := seed
    proc_cnt := 0 }

/-- The time grid `self.t` as the list actually handed to the spline. -/
def tList {D : Type} (e : Engine D) : List ℝ :=
  (List.range e.base.num_grid_points).map e.base.t

/-- `_absStocProc.get_time` (stocproc.py): returns `self.t`. -/
def get_time {D : Type} (e : Engine D) : List ℝ := tList e

/-- `_absStocProc.get_z` (stocproc.py): returns `self._z`. -/
def get_z {D : Type} (e : Engine D) : Option (List ℂ) := e.base.z

/-- Result of `_absStocProc.__call__`: the raw discrete realization when
`t` is omitted, an interpolated value otherwise. -/
inductive CallOut where
  | raw : List ℂ → CallOut
  | val : ℂ → CallOut

/-- `_absStocProc.__call__(t)` (stocproc.py, lines 73-88): raise the
not-ready RuntimeError if `self._z is None`; return `self._z` when `t` is
`None`; otherwise lazily build `ComplexInterpolatedUnivariateSpline(self.t,
self._z, k=self._k)`, cache it, and return `self._interpolator(t)`. -/
noncomputable def callProc {D : Type} (ius : IusT) (e : Engine D) (targ : Option ℝ) :
    Except Err (CallOut × Engine D) :=
  match e.base.z with
  | none => .error .notReady
  | some z =>
    match targ with
    | none => .ok (.raw z, e)
    | some t =>
      match e.base.interpolator with
      | some itp => .ok (.val (itp.eval t), e)
      | none =>
        let itp := mkCIUS ius (tList e) z e.base.k
        .ok (.val (itp.eval t), { e with base := { e.base with interpolator := some itp } })

/-- `_absStocProc.__call__(t)` (class_stocproc.py, lines 50-62): there is no
readiness check; when no interpolator is cached one is built directly from
`(self.t, self._z)`.  With `self._z = None` the external spline collaborator
is handed `None` and raises an unguarded type error (modelled from the spec:
the spline consumes vectors, not `None`). -/
noncomputable def callProcOld {D : Type} (ius : IusT) (e : Engine D) (targ : ℝ) :
    Except Err (ℂ × Engine D) :=
  match e.base.interpolator with
  | some itp => .ok (itp.eval targ, e)
  | none =>
    match e.base.z with
    | none => .error .typeErr
    | some z =>
      let itp := mkCIUSold ius (tList e) z
      .ok (itp.eval targ, { e with base := { e.base with interpolator := some itp } })

/-- `_absStocProc.new_process(y, seed)` (stocproc.py, lines 117-137):
clear `self._interpolator`, bump `self._proc_cnt`, draw
`np.random.normal(scale=self._one_over_sqrt_2, size=2*self.get_num_y()).view(complex)`
when `y` is `None`, and store `self._z = self._calc_z(y)`.  The engine's
`_calc_z` and `get_num_y` enter as the parameters `cz` and `ny`; `g` is the
external random stream in effect after the optional reseeding. -/
noncomputable def new_process {D : Type} (cz : Engine D → List ℂ → Except Err (List ℂ))
    (ny : Engine D → ℕ) (g : ℕ → ℝ) (e : Engine D) (y : Option (List ℂ)) (_sd : Option ℤ) :
    Except Err (Engine D) :=
  let e1 : Engine D :=
    { e with base := { e.base with interpolator := none, proc_cnt := e.base.proc_cnt + 1 } }
  let yv := match y with
    | some yy => yy
    | none => drawComplex g one_over_sqrt_2 (ny e1)
  match cz e1 yv with
  | .error er => .error er
  | .ok z => .ok { e1 with base := { e1.base with z := some z } }

/-- The realization field of the outcome of a `new_process` call. -/
def zOf {D : Type} (r : Except Err (Engine D)) : Except Err (Option (List ℂ)) :=
  r.map (fun e => e.base.z)

/-- Whether an `Except` outcome is a success. -/
def isOkE {α : Type} : Except Err α → Bool
  | .ok _ => true
  | .error _ => false

/-- `StocProc_KLE._calc_corr_min_t_plus_t(s, bcf)`: evaluate `bcf` at the
non-negative lags `s - s[0]` and prepend the conjugated, reversed tail, so
the result is the "doubled" lag vector
`[bcf(τ_{n-1})*, …, bcf(τ_1)*, bcf(τ_0), bcf(τ_1), …, bcf(τ_{n-1})]`. -/
def calc_corr_min_t_plus_t (s : List ℝ) (bcf : ℝ → ℂ) : List ℂ :=
  let bcf_n_plus := s.map (fun si => bcf (si - s.headI))
  ((bcf_n_plus.drop 1).reverse.map (starRingEnd ℂ)) ++ bcf_n_plus

/-- `StocProc_KLE._calc_corr_matrix(s, bcf)`: the `n×n` matrix whose column
`j` is the window `bcf_n[n-1-j : n-1-j+n]` of the doubled lag vector, i.e.
entry `(i, j)` is `bcf_n[(n-1-j)+i]`. -/
def calc_corr_matrix (s : List ℝ) (bcf : ℝ → ℂ) : ℕ → ℕ → ℂ :=
  let n := s.length
  let bcf_n := calc_corr_min_t_plus_t s bcf
  fun i j => bcf_n.getD (n - 1 - j + i) 0

/-- `np.arctan2(y, x)` as the argument of the complex number `x + i·y`. -/
noncomputable def atan2 (y x : ℝ) : ℝ := Complex.arg ⟨x, y⟩

/-- The `align_eig_vec` loop of `StocProc_KLE.__init__` (lines 169-173):
divide each eigenvector column by the phase
`exp(1j * arctan2(Re Σ, Im Σ))` of its component sum. -/
noncomputable def alignMat (M : NpMatrix) : NpMatrix :=
  ⟨M.rows, M.cols, fun g i =>
    let s := ∑ r ∈ Finset.range M.rows, M.entry r i
    M.entry g i / Complex.exp (Complex.I * atan2 s.re s.im)⟩

/-- The state tuple of `StocProc_KLE.__getstate__`:
`(self._A, self.alpha_k, self._seed, self._k, self.t_max, self.ng_fac)`. -/
structure KLETuple where
  A : NpMatrix
  alpha_k : List ℂ
  seed : Option ℤ
  k : ℕ
  t_max : ℝ
  ng_fac : ℕ

/-- The KLE-specific attributes.  `sqrt_eig_val`, `eig_val`, `eig_vec`,
`s` and `w` are `Option`s because not every code path assigns them: in
particular NO code path assigns `self._sqrt_eig_val` (the constructor binds
only the local `_sqrt_eig_val`), so that attribute is `none` on every
reachable engine. -/
structure KLEData where
  A : NpMatrix
  alpha_k : List ℂ
  ng_fac : ℕ
  kle_interp : Bool
  num_y : ℕ
  sqrt_eig_val : Option (List ℝ)
  eig_val : Option (List ℝ)
  eig_vec : Option NpMatrix
  s : Option (List ℝ)
  w : Option (List ℝ)

/-- `StocProc_KLE.__setstate__(state)` (lines 198-207): unpack the tuple,
set `kle_interp` to `False` exactly when `ng_fac == 1`, read
`(num_gp, num_y)` off `self._A.shape`, let
`ng_fine = ng_fac*(num_gp-1)+1`, and run the base initializer with
`num_grid_points = ng_fine`.  A freshly unpickled instance has no
`_sqrt_eig_val`, `_eig_val`, `_eig_vec`, `_s` or `_w` attributes. -/
noncomputable def kleSetstate (st : KLETuple) : Engine KLEData :=
  let kle_interp := if st.ng_fac = 1 then false else true
  let num_gp := st.A.rows
  let ng_fine := st.ng_fac * (num_gp - 1) + 1
  { base := baseInit st.t_max ng_fine st.seed st.k
    data :=
      { A := st.A
        alpha_k := st.alpha_k
        ng_fac := st.ng_fac
        kle_interp := kle_interp
        num_y := st.A.cols
        sqrt_eig_val := none
        eig_val := none
        eig_vec := none
        s := none
        w := none } }

/-- `StocProc_KLE.__getstate__` (line 196). -/
def kleGetstate (e : Engine KLEData) : KLETuple :=
  ⟨e.data.A, e.data.alpha_k, e.base.seed, e.base.k, e.base.t_max, e.data.ng_fac⟩

/-- `StocProc_KLE.__init__` (lines 150-190).  The quadrature rule
`method_kle.get_mid_point_weights_times` and the eigen-solver
`method_kle.solve_hom_fredholm` live in modules that are not under src, so
they enter as the parameters `quad` (times and weights for a horizon and a
node count) and `fred` (eigenvalues and eigenvector matrix from the
correlation matrix, the weights and the threshold `sig_min**2`).  The body
follows the source: solve the discretized Fredholm problem on the
correlation matrix of the quadrature times, optionally align the
eigenvector phases, form the projection matrix
`_A = w.reshape(-1,1) * _eig_vec / _sqrt_eig_val.reshape(1,-1)`, build the
fine-grid doubled lag vector `alpha_k`, route everything through
`__setstate__`, and additionally remember `_s`, `_w`, `_eig_val` and
`_eig_vec` (but NOT `_sqrt_eig_val`, which stays a local variable). -/
noncomputable def kleInit (quad : ℝ → ℕ → ((ℕ → ℝ) × (ℕ → ℝ)))
    (fred : NpMatrix → (ℕ → ℝ) → ℝ → (List ℝ × NpMatrix))
    (r_tau : ℝ → ℂ) (t_max : ℝ) (ng_fredholm : ℕ) (ng_fac : ℕ)
    (seed : Option ℤ) (sig_min : ℝ) (k : ℕ) (align_eig_vec : Bool) :
    Engine KLEData :=
  let tw := quad t_max ng_fredholm
  let s : List ℝ := (List.range ng_fredholm).map tw.1
  let w : ℕ → ℝ := tw.2
  let r : NpMatrix := ⟨ng_fredholm, ng_fredholm, calc_corr_matrix s r_tau⟩
  let sol := fred r w (sig_min ^ 2)
  let ev : NpMatrix := if align_eig_vec then alignMat sol.2 else sol.2
  let A : NpMatrix :=
    ⟨ev.rows, ev.cols, fun g i => (w g : ℂ) * ev.entry g i / (Real.sqrt (sol.1.getD i 0) : ℂ)⟩
  let ng_fine := ng_fac * (ng_fredholm - 1) + 1
  let alpha_k := calc_corr_min_t_plus_t ((List.range ng_fine).map (linspace 0 t_max ng_fine)) r_tau
  let e := kleSetstate ⟨A, alpha_k, seed, k, t_max, ng_fac⟩
  { e with data :=
    { e.data with
        s := some s
        w := some ((List.range ng_fredholm).map w)
        eig_val := some sol.1
        eig_vec := some ev } }

/-- `StocProc_KLE._calc_z(y)` (lines 241-252).  For `kle_interp` the
coefficients `np.tensordot(y, self._A, axes=([0],[1]))` are expanded onto
the fine grid by the compiled kernel `stocproc_c.z_t` (not under src,
entering as the parameter `zt` applied to `ng_fac`, `N1 = A.rows`,
`alpha_k` and `a_tmp`).  Otherwise the source evaluates
`np.tensordot(y*self._sqrt_eig_val, self._eig_vec, axes=([0],[1]))`, which
reads the attributes `_sqrt_eig_val` and then `_eig_vec` and raises
AttributeError when they were never assigned. -/
noncomputable def kleCalcZ (zt : ℕ → ℕ → List ℂ → List ℂ → List ℂ)
    (d : KLEData) (y : List ℂ) : Except Err (List ℂ) :=
  if d.kle_interp then
    match tensordot1 y d.A with
    | .error er => .error er
    | .ok a_tmp => .ok (zt d.ng_fac d.A.rows d.alpha_k a_tmp)
  else
    match d.sqrt_eig_val with
    | none => .error .attributeError
    | some sev =>
      match d.eig_vec with
      | none => .error .attributeError
      | some evec =>
        match npMul y (sev.map Complex.ofReal) with
        | .error er => .error er
        | .ok yw => tensordot1 yw evec

/-- `StocProc_KLE._calc_z` as a method of the full engine. -/
noncomputable def kleCZ (zt : ℕ → ℕ → List ℂ → List ℂ → List ℂ) :
    Engine KLEData → List ℂ → Except Err (List ℂ) :=
  fun e y => kleCalcZ zt e.data y

/-- `StocProc_KLE.get_num_y` (lines 254-255): `self.num_y`. -/
def kleGetNumY (e : Engine KLEData) : ℕ := e.data.num_y

/-- The FFT-specific attributes of `StocProc_FFT_tol`: the square-root
weighted spectral-density samples `yl` and the per-grid-time phase
correction `omega_min_correction`. -/
structure FFTData where
  yl : List ℝ
  omega_min_correction : List ℂ

/-- The state tuple of `StocProc_FFT_tol.__getstate__`:
`(self.yl, self.num_grid_points, self.omega_min_correction, self.t_max,
self._seed, self._k)`. -/
structure FFTTuple where
  yl : List ℝ
  num_grid_points : ℕ
  omega_min_correction : List ℂ
  t_max : ℝ
  seed : Option ℤ
  k : ℕ

/-- The tail of `StocProc_FFT_tol.__init__` (lines 409-421), starting from
the resolved parameters `(a, b, N, dx, dt)` delivered by the boundary/step
search of `method_fft` (module not under src, so `a`, `dx`, `dt`, `N` enter
as parameters): `num_grid_points = int(np.ceil(t_max/dt))+1`,
`t_max = (num_grid_points-1)*dt`, base init, then
`omega = dx*np.arange(N)`,
`yl = np.sqrt(spectral_density(omega + a + dx/2) * dx / np.pi)` and
`omega_min_correction = np.exp(-1j*(a+dx/2)*self.t)`. -/
noncomputable def fftInit (spectral_density : ℝ → ℝ) (t_max : ℝ) (a dx dt : ℝ)
    (N : ℕ) (seed : Option ℤ) (k : ℕ) : Engine FFTData :=
  let num_grid_points : ℕ := (⌈t_max / dt⌉).toNat + 1
  let t_max2 : ℝ := ((num_grid_points : ℝ) - 1) * dt
  let base := baseInit t_max2 num_grid_points seed k
  let yl : List ℝ :=
    (List.range N).map
      (fun j : ℕ => Real.sqrt (spectral_density (dx * (j : ℝ) + a + dx / 2) * dx / Real.pi))
  let omc : List ℂ :=
    (List.range num_grid_points).map (fun j => Complex.exp (-Complex.I * (a + dx / 2) * base.t j))
  ⟨base, ⟨yl, omc⟩⟩

/-- `StocProc_FFT_tol.__getstate__` (lines 423-424). -/
def fftGetstate (e : Engine FFTData) : FFTTuple :=
  ⟨e.data.yl, e.base.num_grid_points, e.data.omega_min_correction,
    e.base.t_max, e.base.seed, e.base.k⟩

/-- `StocProc_FFT_tol.__setstate__(state)` (lines 426-431): unpack the
tuple and run the base initializer. -/
noncomputable def fftSetstate (st : FFTTuple) : Engine FFTData :=
  ⟨baseInit st.t_max st.num_grid_points st.seed st.k, ⟨st.yl, st.omega_min_correction⟩⟩

/-- `StocProc_FFT_tol._calc_z(y)` (lines 434-436):
`np.fft.fft(self.yl * y)[0:self.num_grid_points] * self.omega_min_correction`. -/
noncomputable def fftCalcZ (d : FFTData) (num_grid_points : ℕ) (y : List ℂ) :
    Except Err (List ℂ) :=
  match npMul (d.yl.map Complex.ofReal) y with
  | .error er => .error er
  | .ok p => npMul ((npFFT p).take num_grid_points) d.omega_min_correction

/-- `StocProc_FFT_tol._calc_z` as a method of the full engine. -/
noncomputable def fftCZ : Engine FFTData → List ℂ → Except Err (List ℂ) :=
  fun e y => fftCalcZ e.data e.base.num_grid_points y

/-- `StocProc_FFT_tol.get_num_y` (lines 438-439): `len(self.yl)`. -/
def fftGetNumY (e : Engine FFTData) : ℕ := e.data.yl.length

/-- The attributes specific to `class_stocproc.StocProc_FFT`. -/
structure OldFFTData where
  n_dft : ℕ
  delta_omega : ℝ
  sqrt_sd_over_pi_times_sqrt_delta_omega : List ℝ

/-- `class_stocproc.StocProc_FFT.__init__` (lines 181-195):
`n_dft = num_grid_points*2 - 1`, `delta_t = t_max/(num_grid_points-1)`,
`delta_omega = 2π/(delta_t*n_dft)`, and the weighted samples
`sqrt(spectral_density(delta_omega*j)/π) * sqrt(delta_omega)`. -/
noncomputable def oldFFTInit (spectral_density : ℝ → ℝ) (t_max : ℝ)
    (num_grid_points : ℕ) (seed : Option ℤ) (k : ℕ) : Engine OldFFTData :=
  let base := baseInit t_max num_grid_points seed k
  let n_dft := num_grid_points * 2 - 1
  let delta_t := t_max / ((num_grid_points : ℝ) - 1)
  let delta_omega := 2 * Real.pi / (delta_t * n_dft)
  let sq : List ℝ :=
    (List.range n_dft).map
      (fun j : ℕ =>
        Real.sqrt (spectral_density (delta_omega * (j : ℝ)) / Real.pi) * Real.sqrt delta_omega)
  ⟨base, ⟨n_dft, delta_omega, sq⟩⟩

/-- The exponential phase of `StocProc_KLE_tol._auto_grid_points`
(lines 335-342): starting from `c = 2`, repeatedly double `c`, solve at
`ng = 2*c+1` and measure the error, until the error drops to `tol`.  The
per-resolution error evaluation `_init_StocProc_KLE_and_get_error` rebuilds
the whole engine and calls the compiled kernel
`stocproc_c.eig_func_all_interp` (not under src), so it enters as the
oracle `errf` mapping `ng` to the measured relative maximum reconstruction
error.  Fuel makes the unbounded `while` loop total; `none` means the fuel
ran out before the error dropped below `tol`. -/
noncomputable def expandPhase (errf : ℕ → ℝ) (tol : ℝ) : ℕ → ℕ → Option (ℕ × ℝ)
  | 0, _ => none
  | fuel + 1, c =>
    let c2 := 2 * c
    let e := errf (2 * c2 + 1)
    if e ≤ tol then some (c2, e) else expandPhase errf tol fuel c2

/-- The bisection phase of `StocProc_KLE_tol._auto_grid_points`
(lines 344-355): narrow the bracket `(c_low, c_high)` while it is wider
than 1, probing the midpoint and re-solving there.  Returns the last probed
`c` with its error (this is the resolution the engine is actually left
solved at) together with the final `c_high`. -/
noncomputable def bisectPhase (errf : ℕ → ℝ) (tol : ℝ) :
    ℕ → ℕ → ℕ → ℝ → (ℕ × ℝ × ℕ)
  | c_low, c_high, c_cur, e_cur =>
    if h : c_high - c_low > 1 then
      let c := (c_low + c_high) / 2
      let e := errf (2 * c + 1)
      if e > tol then bisectPhase errf tol c c_high c e
      else bisectPhase errf tol c_low c c e
    else (c_cur, e_cur, c_high)
termination_by c_low c_high => c_high - c_low
decreasing_by all_goals omega

/-- `StocProc_KLE_tol._auto_grid_points` (lines 334-355): the exponential
phase from `c = 2` followed by bisection on `(c//2, c)`.  The result is
`(last probed c, its measured error, final c_high)`; the engine's final
constructed state is the one of the last probed `c`. -/
noncomputable def autoGridPoints (errf : ℕ → ℝ) (tol : ℝ) (fuel : ℕ) :
    Option (ℕ × ℝ × ℕ) :=
  match expandPhase errf tol fuel 2 with
  | none => none
  | some (c, e) => some (bisectPhase errf tol (c / 2) c c e)

/-- Modelled from the spec: the covariance `E[g_k g_l]` of the external
unit-variance Gaussian stream behind `np.random.normal` (independent
standard normal draws). -/
def unitCov (k l : ℕ) : ℝ := if k = l then 1 else 0

/-- Modelled from the spec: the second moment `E[Y_i Y_j^*]` of the complex
samples `Y_i = σ·g_{2i} + i·σ·g_{2i+1}` produced by `drawComplex` from the
unit stream, expanded by bilinearity of the expectation over the real
components. -/
def complexSecondMoment (σ : ℝ) (i j : ℕ) : ℂ :=
  (σ ^ 2 : ℝ) *
    (⟨unitCov (2 * i) (2 * j) + unitCov (2 * i + 1) (2 * j + 1),
      unitCov (2 * i + 1) (2 * j) - unitCov (2 * i) (2 * j + 1)⟩ : ℂ)

section ListHelpers

variable {α β : Type}

theorem getD_append_left' (l₁ l₂ : List α) (d : α) (k : ℕ) (h : k < l₁.length) :
    (l₁ ++ l₂).getD k d = l₁.getD k d := by
  simp [List.getD_eq_getElem?_getD, List.getElem?_append, h]

theorem getD_append_right' (l₁ l₂ : List α) (d : α) (k : ℕ) :
    (l₁ ++ l₂).getD (l₁.length + k) d = l₂.getD k d := by
  simp [List.getD_eq_getElem?_getD, List.getElem?_append]

theorem getD_map' (f : α → β) (l : List α) (d : β) (d₀ : α) (k : ℕ) (h : k < l.length) :
    (l.map f).getD k d = f (l.getD k d₀) := by
  simp [List.getD_eq_getElem?_getD, List.getElem?_map, List.getElem?_eq_getElem h]

theorem getD_reverse' (l : List α) (d : α) (k : ℕ) (h : k < l.length) :
    l.reverse.getD k d = l.getD (l.length - 1 - k) d := by
  simp only [List.getD_eq_getElem?_getD]
  rw [List.getElem?_reverse h]

theorem getD_drop' (l : List α) (d : α) (m k : ℕ) :
    (l.drop m).getD k d = l.getD (m + k) d := by
  simp [List.getD_eq_getElem?_getD, List.getElem?_drop]

theorem getD_take' (l : List α) (d : α) (m k : ℕ) (h : k < m) :
    (l.take m).getD k d = l.getD k d := by
  simp [List.getD_eq_getElem?_getD, List.getElem?_take, h]

theorem getD_range' (n k : ℕ) (h : k < n) : (List.range n).getD k 0 = k := by
  simp [List.getD_eq_getElem?_getD, List.getElem?_range h]

theorem getD_zipWith' (f : ℂ → ℂ → ℂ) (a b : List ℂ) (k : ℕ)
    (ha : k < a.length) (hb : k < b.length) :
    (List.zipWith f a b).getD k 0 = f (a.getD k 0) (b.getD k 0) := by
  simp [List.getD_eq_getElem?_getD, List.getElem?_zipWith,
    List.getElem?_eq_getElem ha, List.getElem?_eq_getElem hb]

theorem sum_map_range' (f : ℕ → ℂ) (n : ℕ) :
    ((List.range n).map f).sum = ∑ i ∈ Finset.range n, f i := by
  induction n with
  | zero => simp
  | succ m ih =>
    rw [List.range_succ, List.map_append, List.sum_append, Finset.sum_range_succ, ih]
    simp

end ListHelpers

/-- The state mutation `new_process` performs before computing `_calc_z`:
the cached interpolator is discarded and the process counter bumped. -/
def stepBase {D : Type} (e : Engine D) : Engine D :=
  { e with base := { e.base with interpolator := none, proc_cnt := e.base.proc_cnt + 1 } }

/-- Storing a freshly computed realization. -/
def setZ {D : Type} (e : Engine D) (z : List ℂ) : Engine D :=
  { e with base := { e.base with z := some z } }

/-- Unfolding lemma for `new_process`. -/
theorem new_process_eq {D : Type} (cz : Engine D → List ℂ → Except Err (List ℂ))
    (ny : Engine D → ℕ) (g : ℕ → ℝ) (e : Engine D) (y : Option (List ℂ)) (sd : Option ℤ) :
    new_process cz ny g e y sd
      = match cz (stepBase e) (y.getD (drawComplex g one_over_sqrt_2 (ny (stepBase e)))) with
        | .error er => .error er
        | .ok z => .ok (setZ (stepBase e) z) := by
  cases y <;> rfl

/-- Claim C9: the discrete realization `Z` is mutated only by
`new_process` — `__call__`, `get_z` and `get_time` leave `Z` unchanged —
and every `new_process` call discards the cached interpolator before
storing the new `Z` (the resulting engine carries no interpolator, and its
`Z` is exactly `_calc_z` of the used input), so no later evaluation can use
an interpolator built from a previous realization. -/
theorem C9_frame :
    (∀ (D : Type) (ius : IusT) (e : Engine D) (targ : Option ℝ),
        (callProc ius e targ).map (fun r => r.2.base.z)
          = (callProc ius e targ).map (fun _ => e.base.z))
    ∧ (∀ (D : Type) (e : Engine D), get_z e = e.base.z ∧ get_time e = tList e)
    ∧ (∀ (D : Type) (cz : Engine D → List ℂ → Except Err (List ℂ)) (ny : Engine D → ℕ)
        (g : ℕ → ℝ) (e : Engine D) (y : Option (List ℂ)) (sd : Option ℤ),
        (new_process cz ny g e y sd).map (fun e2 => e2.base.interpolator)
          = (new_process cz ny g e y sd).map (fun _ => (none : Option CIUS))
        ∧ zOf (new_process cz ny g e y sd)
          = (cz (stepBase e)
              (y.getD (drawComplex g one_over_sqrt_2 (ny (stepBase e))))).map some) := by
  refine ⟨?_, ?_, ?_⟩
  · intro D ius e targ
    cases hz : e.base.z with
    | none => simp [callProc, hz, Except.map]
    | some z =>
      cases targ with
      | none => simp [callProc, hz, Except.map]
      | some t =>
        cases hi : e.base.interpolator with
        | some itp => simp [callProc, hz, hi, Except.map]
        | none => simp [callProc, hz, hi, Except.map]
  · intro D e
    exact ⟨rfl, rfl⟩
  · intro D cz ny g e y sd
    rw [new_process_eq]
    cases h : cz (stepBase e) (y.getD (drawComplex g one_over_sqrt_2 (ny (stepBase e)))) with
    | error er => simp [h, zOf, Except.map]
    | ok z => simp [h, zOf, Except.map, setZ, stepBase]

/-- Claim C10: determinism — the realization produced by `new_process`
with an explicitly supplied `y` is a function of `y` and the immutable
engine configuration only: two engines (KLE or FFT) agreeing on that
configuration produce identical realizations, whatever their mutable state
(current `Z`, cached interpolator, process counter) or the state of the
external random stream. -/
theorem C10_determinism :
    (∀ (zt : ℕ → ℕ → List ℂ → List ℂ → List ℂ) (g1 g2 : ℕ → ℝ)
        (e1 e2 : Engine KLEData) (y : List ℂ) (sd1 sd2 : Option ℤ),
        e1.data = e2.data →
        zOf (new_process (kleCZ zt) kleGetNumY g1 e1 (some y) sd1)
          = zOf (new_process (kleCZ zt) kleGetNumY g2 e2 (some y) sd2))
    ∧ (∀ (g1 g2 : ℕ → ℝ) (e1 e2 : Engine FFTData) (y : List ℂ) (sd1 sd2 : Option ℤ),
        e1.data = e2.data → e1.base.num_grid_points = e2.base.num_grid_points →
        zOf (new_process fftCZ fftGetNumY g1 e1 (some y) sd1)
          = zOf (new_process fftCZ fftGetNumY g2 e2 (some y) sd2)) := by
  constructor
  · intro zt g1 g2 e1 e2 y sd1 sd2 h
    unfold new_process zOf kleCZ
    simp only
    rw [show (kleCalcZ zt e1.data y) = (kleCalcZ zt e2.data y) from by rw [h]]
    cases kleCalcZ zt e2.data y with
    | error er => rfl
    | ok z => rfl
  · intro g1 g2 e1 e2 y sd1 sd2 hd hn
    unfold new_process zOf fftCZ
    simp only
    rw [show (fftCalcZ e1.data e1.base.num_grid_points y)
          = (fftCalcZ e2.data e2.base.num_grid_points y) from by rw [hd, hn]]
    cases fftCalcZ e2.data e2.base.num_grid_points y with
    | error er => rfl
    | ok z => rfl

/-- A trivial engine used to witness theorems quantified over engines. -/
def E0 : Engine Unit := ⟨⟨0, 0, fun _ => 0, none, none, 3, none, 0⟩, ()⟩

/-- A KLE engine literal with empty data, used as a witness input. -/
def EK0 : Engine KLEData :=
  ⟨⟨0, 0, fun _ => 0, none, none, 3, none, 0⟩,
   ⟨⟨0, 0, fun _ _ => 0⟩, [], 2, true, 0, none, none, none, none, none⟩⟩

/-- The same KLE data under a different mutable base state. -/
def EK1 : Engine KLEData :=
  ⟨⟨0, 0, fun _ => 0, some [], none, 3, none, 7⟩,
   ⟨⟨0, 0, fun _ _ => 0⟩, [], 2, true, 0, none, none, none, none, none⟩⟩

/-- An FFT engine literal with empty data, used as a witness input. -/
def EF0 : Engine FFTData := ⟨⟨0, 0, fun _ => 0, none, none, 3, none, 0⟩, ⟨[], []⟩⟩

/-- The same FFT data under a different mutable base state. -/
def EF1 : Engine FFTData := ⟨⟨0, 0, fun _ => 0, some [], none, 3, none, 9⟩, ⟨[], []⟩⟩

theorem C10_determinism_witness :
    zOf (new_process (kleCZ (fun _ _ _ _ => [])) kleGetNumY (fun _ => 0) EK0 (some []) none)
      = zOf (new_process (kleCZ (fun _ _ _ _ => [])) kleGetNumY (fun _ => 1) EK1 (some []) none)
    ∧ zOf (new_process fftCZ fftGetNumY (fun _ => 0) EF0 (some []) none)
      = zOf (new_process fftCZ fftGetNumY (fun _ => 1) EF1 (some []) none) :=
  ⟨C10_determinism.1 (fun _ _ _ _ => []) (fun _ => 0) (fun _ => 1) EK0 EK1 [] none none rfl,
   C10_determinism.2 (fun _ => 0) (fun _ => 1) EF0 EF1 [] none none rfl rfl⟩

/-- Claim C4 (code bug): for a KLE engine with `ng_fac = 1` the source is
meant to return the weighted eigenfunction sum `Y·√λ·U` directly, but line
252 reads `self._sqrt_eig_val`, an attribute no code path ever assigns
(the constructor binds only the local `_sqrt_eig_val`), so `new_process`
raises AttributeError for every input. -/
theorem C4_ngfac1_attribute_error :
    ∀ (quad : ℝ → ℕ → ((ℕ → ℝ) × (ℕ → ℝ)))
      (fred : NpMatrix → (ℕ → ℝ) → ℝ → (List ℝ × NpMatrix))
      (r_tau : ℝ → ℂ) (t_max : ℝ) (ng_fredholm : ℕ) (seed : Option ℤ)
      (sig_min : ℝ) (k : ℕ) (align : Bool)
      (zt : ℕ → ℕ → List ℂ → List ℂ → List ℂ) (g : ℕ → ℝ)
      (y : List ℂ) (sd : Option ℤ),
      new_process (kleCZ zt) kleGetNumY g
        (kleInit quad fred r_tau t_max ng_fredholm 1 seed sig_min k align) (some y) sd
        = .error .attributeError := by
  intro quad fred r_tau t_max ng_fredholm seed sig_min k align zt g y sd
  rfl

/-- `_calc_z` reads only fields that the KLE state tuple carries, so it is
unchanged by a `__getstate__`/`__setstate__` round trip of a
constructor-built engine (in particular, `_sqrt_eig_val` is absent on both
sides). -/
theorem kleCalcZ_roundtrip (zt : ℕ → ℕ → List ℂ → List ℂ → List ℂ)
    (quad : ℝ → ℕ → ((ℕ → ℝ) × (ℕ → ℝ)))
    (fred : NpMatrix → (ℕ → ℝ) → ℝ → (List ℝ × NpMatrix))
    (r_tau : ℝ → ℂ) (t_max : ℝ) (ng_fredholm ng_fac : ℕ) (seed : Option ℤ)
    (sig_min : ℝ) (k : ℕ) (align : Bool) (y : List ℂ) :
    kleCalcZ zt (kleSetstate (kleGetstate
        (kleInit quad fred r_tau t_max ng_fredholm ng_fac seed sig_min k align))).data y
      = kleCalcZ zt
          (kleInit quad fred r_tau t_max ng_fredholm ng_fac seed sig_min k align).data y := by
  by_cases hng : ng_fac = 1
  · simp [kleCalcZ, kleInit, kleSetstate, kleGetstate, hng]
  · simp [kleCalcZ, kleInit, kleSetstate, kleGetstate, hng]

/-- Claim C5: exporting an engine's state snapshot and importing it into a
fresh instance (`__setstate__` of the result of `__getstate__`)
reconstructs — by plain field assignment, with no solve/search phase — an
engine that behaves identically under `new_process`: for the FFT engine the
rebuilt engine is equal to the original outright, and for the KLE engine
`new_process` yields the same outcome for every input `y` (drawn or
explicit) because `_calc_z` reads only the fields the snapshot carries. -/
theorem C5_snapshot_roundtrip :
    (∀ (S : ℝ → ℝ) (t_max a dx dt : ℝ) (N : ℕ) (seed : Option ℤ) (k : ℕ),
        fftSetstate (fftGetstate (fftInit S t_max a dx dt N seed k))
          = fftInit S t_max a dx dt N seed k)
    ∧ (∀ (quad : ℝ → ℕ → ((ℕ → ℝ) × (ℕ → ℝ)))
        (fred : NpMatrix → (ℕ → ℝ) → ℝ → (List ℝ × NpMatrix))
        (r_tau : ℝ → ℂ) (t_max : ℝ) (ng_fredholm ng_fac : ℕ) (seed : Option ℤ)
        (sig_min : ℝ) (k : ℕ) (align : Bool)
        (zt : ℕ → ℕ → List ℂ → List ℂ → List ℂ) (g : ℕ → ℝ)
        (y : Option (List ℂ)) (sd : Option ℤ),
        zOf (new_process (kleCZ zt) kleGetNumY g
              (kleSetstate (kleGetstate
                (kleInit quad fred r_tau t_max ng_fredholm ng_fac seed sig_min k align))) y sd)
          = zOf (new_process (kleCZ zt) kleGetNumY g
              (kleInit quad fred r_tau t_max ng_fredholm ng_fac seed sig_min k align) y sd)) := by
  constructor
  · intro S t_max a dx dt N seed k
    rfl
  · intro quad fred r_tau t_max ng_fredholm ng_fac seed sig_min k align zt g y sd
    rw [new_process_eq, new_process_eq]
    have hny : kleGetNumY (stepBase (kleSetstate (kleGetstate
        (kleInit quad fred r_tau t_max ng_fredholm ng_fac seed sig_min k align))))
        = kleGetNumY (stepBase
            (kleInit quad fred r_tau t_max ng_fredholm ng_fac seed sig_min k align)) := rfl
    rw [hny]
    have hcz : kleCZ zt (stepBase (kleSetstate (kleGetstate
        (kleInit quad fred r_tau t_max ng_fredholm ng_fac seed sig_min k align))))
          (y.getD (drawComplex g one_over_sqrt_2 (kleGetNumY (stepBase
            (kleInit quad fred r_tau t_max ng_fredholm ng_fac seed sig_min k align)))))
        = kleCZ zt (stepBase
            (kleInit quad fred r_tau t_max ng_fredholm ng_fac seed sig_min k align))
          (y.getD (drawComplex g one_over_sqrt_2 (kleGetNumY (stepBase
            (kleInit quad fred r_tau t_max ng_fredholm ng_fac seed sig_min k align))))) := by
      show kleCalcZ zt (kleSetstate (kleGetstate
          (kleInit quad fred r_tau t_max ng_fredholm ng_fac seed sig_min k align))).data _
        = kleCalcZ zt
            (kleInit quad fred r_tau t_max ng_fredholm ng_fac seed sig_min k align).data _
      exact kleCalcZ_roundtrip zt quad fred r_tau t_max ng_fredholm ng_fac seed sig_min k align _
    rw [hcz]
    cases h : kleCZ zt (stepBase
        (kleInit quad fred r_tau t_max ng_fredholm ng_fac seed sig_min k align))
        (y.getD (drawComplex g one_over_sqrt_2 (kleGetNumY (stepBase
          (kleInit quad fred r_tau t_max ng_fredholm ng_fac seed sig_min k align))))) with
    | error er => simp [h]
    | ok z => simp [h, zOf, Except.map, setZ, stepBase]

/-- Claim C8, counterexample: the code draws the real and imaginary parts
with standard deviation `1/np.sqrt(2)` (the stored `_one_over_sqrt_2`), so
the second moment `E[Y_0 Y_0^*]` of the drawn complex Gaussians is 1 — the
claimed value `2·δ_00 = 2` is wrong. -/
theorem C8_variance_counterexample :
    complexSecondMoment one_over_sqrt_2 0 0 = 1 ∧ (1 : ℂ) ≠ 2 := by
  constructor
  · have h2 : one_over_sqrt_2 ^ 2 = 1 / 2 := by
      rw [one_over_sqrt_2, div_pow, one_pow, Real.sq_sqrt]
      norm_num
    rw [complexSecondMoment, h2]
    simp [unitCov]
    apply Complex.ext
    · simp; norm_num
    · simp
  · intro h
    have := congrArg Complex.re h
    norm_num at this

/-- Claim C8, amended: when `new_process` is called without an explicit
`y`, the engine draws exactly `get_num_y()` complex Gaussians (pairs of
real draws scaled by `1/√2`), whose second moment is `E[Y_i Y_j^*] = δ_ij`
(unit variance, not `2·δ_ij`); an explicitly supplied `y` suppresses the
draw entirely — the outcome does not depend on the random stream. -/
theorem C8_amended :
    (∀ i j : ℕ, complexSecondMoment one_over_sqrt_2 i j = if i = j then 1 else 0)
    ∧ (∀ (g : ℕ → ℝ) (σ : ℝ) (m : ℕ), (drawComplex g σ m).length = m)
    ∧ (∀ (D : Type) (cz : Engine D → List ℂ → Except Err (List ℂ)) (ny : Engine D → ℕ)
        (g1 g2 : ℕ → ℝ) (e : Engine D) (y : List ℂ) (sd1 sd2 : Option ℤ),
        new_process cz ny g1 e (some y) sd1 = new_process cz ny g2 e (some y) sd2) := by
  refine ⟨?_, ?_, ?_⟩
  · intro i j
    have h2 : one_over_sqrt_2 ^ 2 = 1 / 2 := by
      rw [one_over_sqrt_2, div_pow, one_pow, Real.sq_sqrt]
      norm_num
    have ha : unitCov (2 * i) (2 * j) = if i = j then 1 else 0 := by
      rw [unitCov]; by_cases h : i = j
      · rw [if_pos (by omega), if_pos h]
      · rw [if_neg (by omega), if_neg h]
    have hb : unitCov (2 * i + 1) (2 * j + 1) = if i = j then 1 else 0 := by
      rw [unitCov]; by_cases h : i = j
      · rw [if_pos (by omega), if_pos h]
      · rw [if_neg (by omega), if_neg h]
    have hc : unitCov (2 * i + 1) (2 * j) = 0 := by
      rw [unitCov, if_neg (by omega)]
    have hd : unitCov (2 * i) (2 * j + 1) = 0 := by
      rw [unitCov, if_neg (by omega)]
    rw [complexSecondMoment, ha, hb, hc, hd, h2]
    by_cases h : i = j
    · simp only [if_pos h]
      apply Complex.ext
      · simp; norm_num
      · simp
    · simp only [if_neg h]
      apply Complex.ext
      · simp
      · simp
  · intro g σ m
    simp [drawComplex]
  · intro D cz ny g1 g2 e y sd1 sd2
    rfl

/-- When `_calc_z` raises, `new_process` propagates the exception. -/
theorem new_process_fail {D : Type} (cz : Engine D → List ℂ → Except Err (List ℂ))
    (ny : Engine D → ℕ) (g : ℕ → ℝ) (e : Engine D) (y : Option (List ℂ)) (sd : Option ℤ)
    (er : Err)
    (h : cz (stepBase e) (y.getD (drawComplex g one_over_sqrt_2 (ny (stepBase e)))) = .error er) :
    new_process cz ny g e y sd = .error er := by
  rw [new_process_eq, h]

/-- `StocProc_KLE._calc_z` fails on every constructor-reachable state when
the input length differs from the mode count: the `kle_interp` branch hits
the tensordot shape check, and the other branch reads the absent
`_sqrt_eig_val`. -/
theorem kleCalcZ_fail (zt : ℕ → ℕ → List ℂ → List ℂ → List ℂ) (d : KLEData) (y : List ℂ)
    (hlen : y.length ≠ d.A.cols) (hsq : d.sqrt_eig_val = none) :
    ∃ er, kleCalcZ zt d y = .error er := by
  rw [kleCalcZ]
  by_cases hk : d.kle_interp = true
  · rw [if_pos hk, tensordot1, if_neg hlen]
    exact ⟨.shapeMismatch, rfl⟩
  · rw [if_neg hk, hsq]
    exact ⟨.attributeError, rfl⟩

/-- `StocProc_FFT_tol._calc_z` fails on a length mismatch, provided neither
operand of the elementwise product has length one (numpy broadcasting). -/
theorem fftCalcZ_fail (d : FFTData) (ngp : ℕ) (y : List ℂ)
    (h1 : y.length ≠ d.yl.length) (h2 : y.length ≠ 1) (h3 : d.yl.length ≠ 1) :
    fftCalcZ d ngp y = .error .shapeMismatch := by
  have hm : npMul (d.yl.map Complex.ofReal) y = .error .shapeMismatch := by
    rw [npMul, if_neg (by rw [List.length_map]; exact fun hc => h1 hc.symm),
      if_neg (by rw [List.length_map]; exact h3), if_neg h2]
  rw [fftCalcZ, hm]

/-- `StocProc_FFT_tol._calc_z` silently accepts a length-one input `y`
against a longer frequency grid: numpy broadcasts it. -/
theorem fftCalcZ_broadcast (d : FFTData) (ngp : ℕ) (y : List ℂ)
    (hy : y.length = 1) (hne : d.yl.length ≠ 1)
    (hmin : min ngp d.yl.length = d.omega_min_correction.length) :
    ∃ zz, fftCalcZ d ngp y = .ok zz := by
  have hm : npMul (d.yl.map Complex.ofReal) y
      = .ok ((d.yl.map Complex.ofReal).map (fun x => x * y.headI)) := by
    rw [npMul, if_neg (by rw [List.length_map, hy]; exact hne),
      if_neg (by rw [List.length_map]; exact hne), if_pos hy]
  rw [fftCalcZ]
  simp only [hm]
  have hl : (((npFFT ((d.yl.map Complex.ofReal).map (fun x => x * y.headI))).take ngp).length)
      = d.omega_min_correction.length := by
    rw [List.length_take, npFFT, List.length_map, List.length_range,
      List.length_map, List.length_map]
    exact hmin
  rw [npMul, if_pos hl]
  exact ⟨_, rfl⟩

/-- Claim C1, amended: calling `new_process` with an explicit `y` whose
length differs from `get_num_y()` fails for every KLE engine (a shape error
in the `kle_interp` branch, the `_sqrt_eig_val` attribute error otherwise)
and for every FFT engine in which neither `y` nor the frequency grid has
length one; a length-one `y` (or frequency grid) is instead silently
broadcast by numpy.  `get_num_y()` of a KLE engine equals the column count
of the eigenvector matrix returned by the Fredholm solver, i.e. the number
`m` of retained eigenpairs. -/
theorem C1_amended :
    (∀ (quad : ℝ → ℕ → ((ℕ → ℝ) × (ℕ → ℝ)))
        (fred : NpMatrix → (ℕ → ℝ) → ℝ → (List ℝ × NpMatrix))
        (r_tau : ℝ → ℂ) (t_max : ℝ) (ng_fredholm ng_fac : ℕ) (seed : Option ℤ)
        (sig_min : ℝ) (k : ℕ) (align : Bool)
        (zt : ℕ → ℕ → List ℂ → List ℂ → List ℂ) (g : ℕ → ℝ) (sd : Option ℤ) (y : List ℂ),
        y.length ≠ kleGetNumY (kleInit quad fred r_tau t_max ng_fredholm ng_fac seed sig_min k align) →
        isOkE (new_process (kleCZ zt) kleGetNumY g
          (kleInit quad fred r_tau t_max ng_fredholm ng_fac seed sig_min k align)
          (some y) sd) = false)
    ∧ (∀ (e : Engine FFTData) (g : ℕ → ℝ) (sd : Option ℤ) (y : List ℂ),
        y.length ≠ fftGetNumY e → y.length ≠ 1 → fftGetNumY e ≠ 1 →
        isOkE (new_process fftCZ fftGetNumY g e (some y) sd) = false)
    ∧ (∀ (quad : ℝ → ℕ → ((ℕ → ℝ) × (ℕ → ℝ)))
        (fred : NpMatrix → (ℕ → ℝ) → ℝ → (List ℝ × NpMatrix))
        (r_tau : ℝ → ℂ) (t_max : ℝ) (ng_fredholm ng_fac : ℕ) (seed : Option ℤ)
        (sig_min : ℝ) (k : ℕ) (align : Bool),
        kleGetNumY (kleInit quad fred r_tau t_max ng_fredholm ng_fac seed sig_min k align)
          = (fred ⟨ng_fredholm, ng_fredholm,
              calc_corr_matrix ((List.range ng_fredholm).map (quad t_max ng_fredholm).1) r_tau⟩
              (quad t_max ng_fredholm).2 (sig_min ^ 2)).2.cols) := by
  refine ⟨?_, ?_, ?_⟩
  · intro quad fred r_tau t_max ng_fredholm ng_fac seed sig_min k align zt g sd y h
    obtain ⟨er, her⟩ := kleCalcZ_fail zt
      (kleInit quad fred r_tau t_max ng_fredholm ng_fac seed sig_min k align).data y h rfl
    rw [new_process_fail (kleCZ zt) kleGetNumY g
      (kleInit quad fred r_tau t_max ng_fredholm ng_fac seed sig_min k align) (some y) sd er her]
    rfl
  · intro e g sd y h1 h2 h3
    have her : fftCalcZ e.data e.base.num_grid_points y = .error .shapeMismatch :=
      fftCalcZ_fail e.data e.base.num_grid_points y h1 h2 h3
    rw [new_process_fail fftCZ fftGetNumY g e (some y) sd .shapeMismatch her]
    rfl
  · intro quad fred r_tau t_max ng_fredholm ng_fac seed sig_min k align
    cases align <;> rfl

/-- Claim C1, counterexample: the FFT engine built from the constant
spectral density on a two-point frequency grid (`get_num_y() = 2`) accepts
`new_process` with the length-one vector `y = [1]` — numpy broadcasting
lets the mismatched input through instead of failing. -/
theorem C1_counterexample :
    isOkE (new_process fftCZ fftGetNumY (fun _ => 0)
        (fftInit (fun _ => (1 : ℝ)) 1 0 1 1 2 none 3) (some [1]) none) = true
    ∧ fftGetNumY (fftInit (fun _ => (1 : ℝ)) 1 0 1 1 2 none 3) = 2
    ∧ [(1 : ℂ)].length ≠ 2 := by
  have hnum : (fftInit (fun _ => (1 : ℝ)) 1 0 1 1 2 none 3).base.num_grid_points
      = (⌈(1 : ℝ) / 1⌉).toNat + 1 := rfl
  have hn2 : (⌈(1 : ℝ) / 1⌉).toNat + 1 = 2 := by norm_num
  have hyl : (fftInit (fun _ => (1 : ℝ)) 1 0 1 1 2 none 3).data.yl.length = 2 := by
    rw [show (fftInit (fun _ => (1 : ℝ)) 1 0 1 1 2 none 3).data.yl
        = (List.range 2).map
            (fun j : ℕ => Real.sqrt ((fun _ => (1 : ℝ)) (1 * (j : ℝ) + 0 + 1 / 2) * 1 / Real.pi))
      from rfl, List.length_map, List.length_range]
  have homc : (fftInit (fun _ => (1 : ℝ)) 1 0 1 1 2 none 3).data.omega_min_correction.length
      = (⌈(1 : ℝ) / 1⌉).toNat + 1 := by
    rw [show (fftInit (fun _ => (1 : ℝ)) 1 0 1 1 2 none 3).data.omega_min_correction
        = (List.range ((⌈(1 : ℝ) / 1⌉).toNat + 1)).map
            (fun j : ℕ => Complex.exp (-Complex.I * (0 + 1 / 2)
              * (fftInit (fun _ => (1 : ℝ)) 1 0 1 1 2 none 3).base.t j))
      from rfl, List.length_map, List.length_range]
  refine ⟨?_, ?_, by decide⟩
  · obtain ⟨zz, hzz⟩ := fftCalcZ_broadcast
      (fftInit (fun _ => (1 : ℝ)) 1 0 1 1 2 none 3).data
      (fftInit (fun _ => (1 : ℝ)) 1 0 1 1 2 none 3).base.num_grid_points
      [1] rfl (by rw [hyl]; decide)
      (by rw [hyl, homc, hnum, hn2]; norm_num)
    rw [new_process_eq]
    rw [show fftCZ (stepBase (fftInit (fun _ => (1 : ℝ)) 1 0 1 1 2 none 3))
        ((some [1]).getD (drawComplex (fun _ => 0) one_over_sqrt_2
          (fftGetNumY (stepBase (fftInit (fun _ => (1 : ℝ)) 1 0 1 1 2 none 3)))))
        = .ok zz from hzz]
    rfl
  · rw [show fftGetNumY (fftInit (fun _ => (1 : ℝ)) 1 0 1 1 2 none 3)
        = (fftInit (fun _ => (1 : ℝ)) 1 0 1 1 2 none 3).data.yl.length from rfl, hyl]

/-- Witness data for the C1 theorems: a one-mode Fredholm solver stub. -/
def fredW : NpMatrix → (ℕ → ℝ) → ℝ → (List ℝ × NpMatrix) :=
  fun _ _ _ => ([1], ⟨1, 1, fun _ _ => 1⟩)

/-- Witness data for the C1 theorems: a trivial quadrature stub. -/
def quadW : ℝ → ℕ → ((ℕ → ℝ) × (ℕ → ℝ)) :=
  fun _ _ => (fun _ => 0, fun _ => 1)

theorem C1_amended_witness :
    (([] : List ℂ).length ≠ kleGetNumY (kleInit quadW fredW (fun _ => 1) 1 3 2 none 0 3 false)
      ∧ isOkE (new_process (kleCZ (fun _ _ _ _ => [])) kleGetNumY (fun _ => 0)
          (kleInit quadW fredW (fun _ => 1) 1 3 2 none 0 3 false) (some []) none) = false)
    ∧ (([1, 1, 1] : List ℂ).length ≠ fftGetNumY (fftInit (fun _ => (1 : ℝ)) 1 0 1 1 2 none 3)
      ∧ isOkE (new_process fftCZ fftGetNumY (fun _ => 0)
          (fftInit (fun _ => (1 : ℝ)) 1 0 1 1 2 none 3) (some [1, 1, 1]) none) = false)
    ∧ kleGetNumY (kleInit quadW fredW (fun _ => 1) 1 3 2 none 0 3 false)
        = (fredW ⟨3, 3, calc_corr_matrix ((List.range 3).map (quadW 1 3).1) (fun _ => 1)⟩
            (quadW 1 3).2 ((0 : ℝ) ^ 2)).2.cols := by
  have hk : ([] : List ℂ).length ≠ kleGetNumY (kleInit quadW fredW (fun _ => 1) 1 3 2 none 0 3 false) :=
    (by decide : (0 : ℕ) ≠ 1)
  have hf1 : ([1, 1, 1] : List ℂ).length ≠ fftGetNumY (fftInit (fun _ => (1 : ℝ)) 1 0 1 1 2 none 3) := by
    rw [show fftGetNumY (fftInit (fun _ => (1 : ℝ)) 1 0 1 1 2 none 3)
        = (fftInit (fun _ => (1 : ℝ)) 1 0 1 1 2 none 3).data.yl.length from rfl,
      show (fftInit (fun _ => (1 : ℝ)) 1 0 1 1 2 none 3).data.yl.length = 2 from by
        rw [show (fftInit (fun _ => (1 : ℝ)) 1 0 1 1 2 none 3).data.yl
            = (List.range 2).map
                (fun j : ℕ => Real.sqrt ((fun _ => (1 : ℝ)) (1 * (j : ℝ) + 0 + 1 / 2) * 1
                  / Real.pi))
          from rfl, List.length_map, List.length_range]]
    decide
  have hf3 : fftGetNumY (fftInit (fun _ => (1 : ℝ)) 1 0 1 1 2 none 3) ≠ 1 := by
    rw [show fftGetNumY (fftInit (fun _ => (1 : ℝ)) 1 0 1 1 2 none 3)
        = (fftInit (fun _ => (1 : ℝ)) 1 0 1 1 2 none 3).data.yl.length from rfl,
      show (fftInit (fun _ => (1 : ℝ)) 1 0 1 1 2 none 3).data.yl.length = 2 from by
        rw [show (fftInit (fun _ => (1 : ℝ)) 1 0 1 1 2 none 3).data.yl
            = (List.range 2).map
                (fun j : ℕ => Real.sqrt ((fun _ => (1 : ℝ)) (1 * (j : ℝ) + 0 + 1 / 2) * 1
                  / Real.pi))
          from rfl, List.length_map, List.length_range]]
    decide
  exact ⟨⟨hk, C1_amended.1 quadW fredW (fun _ => 1) 1 3 2 none 0 3 false
      (fun _ _ _ _ => []) (fun _ => 0) none [] hk⟩,
    ⟨hf1, C1_amended.2.1 (fftInit (fun _ => (1 : ℝ)) 1 0 1 1 2 none 3) (fun _ => 0) none
      [1, 1, 1] hf1 (by decide) hf3⟩,
    C1_amended.2.2 quadW fredW (fun _ => 1) 1 3 2 none 0 3 false⟩

/-- Caching the freshly built interpolator on the engine. -/
def setItp {D : Type} (e : Engine D) (itp : CIUS) : Engine D :=
  { e with base := { e.base with interpolator := some itp } }

/-- Claim C3, amended: for the engines of stocproc.py, evaluating before
any realization exists fails with the NotReady error for every argument
`t` (including the omitted one); the first call with a time argument after
a realization exists lazily builds the complex spline over
`(self.t, self._z)` with real and imaginary parts interpolated
independently, caches it, and returns its value, and later calls reuse the
cache.  The engines of class_stocproc.py, by contrast, perform no
readiness check: called before any realization they hand `None` to the
external spline collaborator and fail with an unguarded type error, not
with NotReady. -/
theorem C3_amended :
    (∀ (D : Type) (ius : IusT) (e : Engine D) (targ : Option ℝ),
        e.base.z = none → callProc ius e targ = .error .notReady)
    ∧ (∀ (D : Type) (ius : IusT) (e : Engine D) (z : List ℂ) (t : ℝ),
        e.base.z = some z → e.base.interpolator = none →
        callProc ius e (some t)
          = .ok (.val ((mkCIUS ius (tList e) z e.base.k).eval t),
              setItp e (mkCIUS ius (tList e) z e.base.k)))
    ∧ (∀ (D : Type) (ius : IusT) (e : Engine D) (z : List ℂ) (itp : CIUS) (t : ℝ),
        e.base.z = some z → e.base.interpolator = some itp →
        callProc ius e (some t) = .ok (.val (itp.eval t), e))
    ∧ (∀ (D : Type) (ius : IusT) (e : Engine D) (targ : ℝ),
        e.base.interpolator = none → e.base.z = none →
        callProcOld ius e targ = .error .typeErr) := by
  refine ⟨?_, ?_, ?_, ?_⟩
  · intro D ius e targ hz
    rw [callProc, hz]
  · intro D ius e z t hz hi
    rw [callProc, hz, hi]
    rfl
  · intro D ius e z itp t hz hi
    rw [callProc, hz, hi]
  · intro D ius e targ hi hz
    rw [callProcOld, hi, hz]

/-- Claim C3, counterexample: the class_stocproc.py FFT engine, freshly
constructed (no realization yet), does not raise NotReady when evaluated —
its `__call__` goes straight to interpolator construction and fails with
the collaborator's type error instead. -/
theorem C3_counterexample :
    callProcOld (fun _ _ _ => fun _ => 0) (oldFFTInit (fun _ => (1 : ℝ)) 1 2 none 3) 0
      = .error .typeErr
    ∧ Err.typeErr ≠ Err.notReady := by
  exact ⟨rfl, by decide⟩

/-- A unit engine holding a realization but no interpolator. -/
def EZ : Engine Unit := ⟨⟨0, 1, fun _ => 0, some [0], none, 3, none, 0⟩, ()⟩

/-- A unit engine holding a realization and a cached interpolator. -/
def EI : Engine Unit :=
  ⟨⟨0, 1, fun _ => 0, some [0], some ⟨fun _ => 0, fun _ => 0⟩, 3, none, 0⟩, ()⟩

theorem C3_amended_witness :
    (callProc (fun _ _ _ => fun _ => 0) E0 none = .error .notReady
      ∧ callProc (fun _ _ _ => fun _ => 0) E0 (some 1) = .error .notReady)
    ∧ callProc (fun _ _ _ => fun _ => 0) EZ (some 1)
        = .ok (.val ((mkCIUS (fun _ _ _ => fun _ => 0) (tList EZ) [0] EZ.base.k).eval 1),
            setItp EZ (mkCIUS (fun _ _ _ => fun _ => 0) (tList EZ) [0] EZ.base.k))
    ∧ callProc (fun _ _ _ => fun _ => 0) EI (some 1)
        = .ok (.val ((⟨fun _ => 0, fun _ => 0⟩ : CIUS).eval 1), EI)
    ∧ callProcOld (fun _ _ _ => fun _ => 0) E0 1 = .error .typeErr :=
  ⟨⟨C3_amended.1 Unit (fun _ _ _ => fun _ => 0) E0 none rfl,
    C3_amended.1 Unit (fun _ _ _ => fun _ => 0) E0 (some 1) rfl⟩,
   C3_amended.2.1 Unit (fun _ _ _ => fun _ => 0) EZ [0] 1 rfl rfl,
   C3_amended.2.2.1 Unit (fun _ _ _ => fun _ => 0) EI [0] ⟨fun _ => 0, fun _ => 0⟩ 1 rfl rfl,
   C3_amended.2.2.2 Unit (fun _ _ _ => fun _ => 0) E0 1 rfl rfl⟩

/-- The error oracle used to exhibit the auto-grid-search defect: the
resolution `ng = 9` (i.e. `c = 4`) meets the tolerance 1 with error `1/2`,
every other probed resolution measures error 2. -/
noncomputable def exErrf : ℕ → ℝ := fun ng => if ng = 9 then 1 / 2 else 2

/-- Claim C2 (code bug): running `_auto_grid_points` with `tol = 1` on the
oracle `exErrf` terminates with `c_high = 4` — the smallest validated `c` —
but the last probed resolution, and hence the engine's final constructed
state, is `c = 3`, whose measured error 2 exceeds the tolerance: the
search never re-solves at `c_high` after the final failing bisection
probe. -/
theorem C2_final_state_fails :
    autoGridPoints exErrf 1 5 = some (3, 2, 4)
    ∧ (1 : ℝ) < exErrf (2 * 3 + 1)
    ∧ exErrf (2 * 4 + 1) ≤ 1 := by
  refine ⟨?_, by norm_num [exErrf], by norm_num [exErrf]⟩
  have h9 : exErrf 9 = 1 / 2 := by norm_num [exErrf]
  have h7 : exErrf 7 = 2 := by norm_num [exErrf]
  have he : expandPhase exErrf 1 5 2 = some (4, 1 / 2) := by
    rw [expandPhase]
    norm_num [h9]
  have hb2 : bisectPhase exErrf 1 3 4 3 2 = (3, 2, 4) := by
    rw [bisectPhase]
    norm_num
  have hb : bisectPhase exErrf 1 2 4 4 (1 / 2) = (3, 2, 4) := by
    rw [bisectPhase]
    norm_num [h7, hb2]
  rw [autoGridPoints, he]
  norm_num [hb]

/-- Length of the doubled lag vector: `(n-1) + n` entries. -/
theorem ccm_length (s : List ℝ) (bcf : ℝ → ℂ) :
    (calc_corr_min_t_plus_t s bcf).length = s.length - 1 + s.length := by
  simp [calc_corr_min_t_plus_t]

/-- The second (non-negative-lag) half of the doubled lag vector holds the
direct evaluations `bcf(s_k - s_0)`. -/
theorem ccm_getD_pos (s : List ℝ) (bcf : ℝ → ℂ) (k : ℕ) (hk : k < s.length) :
    (calc_corr_min_t_plus_t s bcf).getD (s.length - 1 + k) 0
      = bcf (s.getD k 0 - s.headI) := by
  simp only [calc_corr_min_t_plus_t]
  rw [show s.length - 1 + k
      = (((s.map (fun si => bcf (si - s.headI))).drop 1).reverse.map (starRingEnd ℂ)).length + k
    from by simp]
  rw [getD_append_right']
  exact getD_map' _ s 0 0 k hk

/-- The first (negative-lag) half of the doubled lag vector holds the
conjugated evaluations in reverse order. -/
theorem ccm_getD_neg (s : List ℝ) (bcf : ℝ → ℂ) (k : ℕ) (hk : k < s.length - 1) :
    (calc_corr_min_t_plus_t s bcf).getD k 0
      = (starRingEnd ℂ) (bcf (s.getD (s.length - 1 - k) 0 - s.headI)) := by
  simp only [calc_corr_min_t_plus_t]
  rw [getD_append_left' _ _ _ k (by simp; omega)]
  rw [getD_map' (starRingEnd ℂ) _ 0 0 k (by simp; omega)]
  rw [getD_reverse' _ 0 k (by simp; omega)]
  rw [getD_drop']
  have hidx : 1 + (((s.map (fun si => bcf (si - s.headI))).drop 1).length - 1 - k)
      = s.length - 1 - k := by
    simp
    omega
  rw [hidx]
  exact congrArg (starRingEnd ℂ) (getD_map' (fun si => bcf (si - s.headI)) s 0 0
    (s.length - 1 - k) (by omega))

/-- Entries of the equidistant time grid. -/
theorem equidistant_getD (n : ℕ) (t0 d : ℝ) (k : ℕ) (hk : k < n) :
    ((List.range n).map (fun m : ℕ => t0 + (m : ℝ) * d)).getD k 0 = t0 + (k : ℝ) * d := by
  rw [getD_map' (fun m : ℕ => t0 + (m : ℝ) * d) (List.range n) 0 0 k (by simpa using hk),
    getD_range' n k hk]

/-- Head of the equidistant time grid. -/
theorem equidistant_headI (n : ℕ) (t0 d : ℝ) (hn : 1 ≤ n) :
    ((List.range n).map (fun m : ℕ => t0 + (m : ℝ) * d)).headI = t0 + (0 : ℝ) * d := by
  obtain ⟨m, rfl⟩ : ∃ m, n = m + 1 := ⟨n - 1, by omega⟩
  rw [List.range_succ_eq_map]
  simp

/-- Entry characterization of the assembled correlation matrix on an
equidistant grid: entry `(i, j)` is `bcf((i-j)·d)` below the diagonal and
the conjugate `bcf((j-i)·d)*` above it. -/
theorem corr_entry (n : ℕ) (t0 d : ℝ) (bcf : ℝ → ℂ) (i j : ℕ) (hi : i < n) (hj : j < n) :
    calc_corr_matrix ((List.range n).map (fun m : ℕ => t0 + (m : ℝ) * d)) bcf i j
      = if j ≤ i then bcf ((i - j : ℕ) * d)
        else (starRingEnd ℂ) (bcf ((j - i : ℕ) * d)) := by
  have hsl : ((List.range n).map (fun m : ℕ => t0 + (m : ℝ) * d)).length = n := by simp
  simp only [calc_corr_matrix]
  rw [hsl]
  by_cases hle : j ≤ i
  · rw [if_pos hle]
    rw [show n - 1 - j + i
        = ((List.range n).map (fun m : ℕ => t0 + (m : ℝ) * d)).length - 1 + (i - j)
      from by rw [hsl]; omega]
    rw [ccm_getD_pos _ bcf (i - j) (by rw [hsl]; omega)]
    rw [equidistant_getD n t0 d (i - j) (by omega), equidistant_headI n t0 d (by omega)]
    ring_nf
  · rw [if_neg hle]
    rw [ccm_getD_neg _ bcf (n - 1 - j + i) (by rw [hsl]; omega)]
    rw [show ((List.range n).map (fun m : ℕ => t0 + (m : ℝ) * d)).length - 1 - (n - 1 - j + i)
        = j - i from by rw [hsl]; omega]
    rw [equidistant_getD n t0 d (j - i) (by omega), equidistant_headI n t0 d (by omega)]
    ring_nf

/-- Claim C6: on an equidistant grid of `n` points the correlation builder
produces a doubled lag vector of length `2n-1` whose negative-lag half is
the conjugate mirror of the positive half, the assembled matrix satisfies
entry `(i,j) = R(t_i - t_j)` for every `i, j` whenever `R` has the
conjugate symmetry `R(-τ) = R(τ)*`, and the whole construction evaluates
`R` only at the `n` non-negative lags `t_i - t_0`: two correlation
functions agreeing there yield identical matrices. -/
theorem C6_corr_builder (n : ℕ) (hn : 1 ≤ n) (t0 d : ℝ) (bcf bcf2 : ℝ → ℂ)
    (hsym : ∀ τ : ℝ, bcf (-τ) = (starRingEnd ℂ) (bcf τ))
    (hagree : ∀ m : ℕ, m < n → bcf2 ((m : ℝ) * d) = bcf ((m : ℝ) * d)) :
    ((calc_corr_min_t_plus_t ((List.range n).map (fun m : ℕ => t0 + (m : ℝ) * d)) bcf).length
        = 2 * n - 1)
    ∧ (∀ k, k < n - 1 →
        (calc_corr_min_t_plus_t ((List.range n).map (fun m : ℕ => t0 + (m : ℝ) * d)) bcf).getD k 0
          = (starRingEnd ℂ)
            ((calc_corr_min_t_plus_t ((List.range n).map (fun m : ℕ => t0 + (m : ℝ) * d))
              bcf).getD (2 * n - 2 - k) 0))
    ∧ (∀ i j, i < n → j < n →
        calc_corr_matrix ((List.range n).map (fun m : ℕ => t0 + (m : ℝ) * d)) bcf i j
          = bcf ((i : ℝ) * d - (j : ℝ) * d))
    ∧ (∀ i j, i < n → j < n →
        calc_corr_matrix ((List.range n).map (fun m : ℕ => t0 + (m : ℝ) * d)) bcf2 i j
          = calc_corr_matrix ((List.range n).map (fun m : ℕ => t0 + (m : ℝ) * d)) bcf i j) := by
  have hsl : ((List.range n).map (fun m : ℕ => t0 + (m : ℝ) * d)).length = n := by simp
  refine ⟨?_, ?_, ?_, ?_⟩
  · rw [ccm_length, hsl]
    omega
  · intro k hk
    rw [ccm_getD_neg _ bcf k (by rw [hsl]; omega)]
    rw [show 2 * n - 2 - k
        = ((List.range n).map (fun m : ℕ => t0 + (m : ℝ) * d)).length - 1 + (n - 1 - k)
      from by rw [hsl]; omega]
    rw [ccm_getD_pos _ bcf (n - 1 - k) (by rw [hsl]; omega)]
    rw [hsl]
  · intro i j hi hj
    rw [corr_entry n t0 d bcf i j hi hj]
    by_cases hle : j ≤ i
    · rw [if_pos hle]
      congr 1
      rw [Nat.cast_sub hle]
      ring
    · rw [if_neg hle]
      rw [← hsym ((j - i : ℕ) * d)]
      congr 1
      rw [Nat.cast_sub (by omega : i ≤ j)]
      ring
  · intro i j hi hj
    rw [corr_entry n t0 d bcf i j hi hj, corr_entry n t0 d bcf2 i j hi hj]
    by_cases hle : j ≤ i
    · rw [if_pos hle, if_pos hle]
      exact hagree (i - j) (by omega)
    · rw [if_neg hle, if_neg hle]
      exact congrArg (starRingEnd ℂ) (hagree (j - i) (by omega))

/-- A conjugate-symmetric correlation function used as witness input. -/
def bcfW : ℝ → ℂ := fun τ => ⟨1, τ⟩

theorem C6_corr_builder_witness :
    ((1 : ℕ) ≤ 2 ∧ (∀ τ : ℝ, bcfW (-τ) = (starRingEnd ℂ) (bcfW τ)))
    ∧ calc_corr_matrix ((List.range 2).map (fun m : ℕ => (0 : ℝ) + (m : ℝ) * 1)) bcfW 1 0
        = bcfW ((1 : ℕ) * (1 : ℝ) - (0 : ℕ) * (1 : ℝ)) := by
  have hsym : ∀ τ : ℝ, bcfW (-τ) = (starRingEnd ℂ) (bcfW τ) := by
    intro τ
    apply Complex.ext
    · simp [bcfW]
    · simp [bcfW]
  exact ⟨⟨by norm_num, hsym⟩,
    (C6_corr_builder 2 (by norm_num) 0 1 bcfW bcfW hsym (fun _ _ => rfl)).2.2.1 1 0
      (by norm_num) (by norm_num)⟩

/-- The sampled weighted spectral density of the FFT engine, entrywise. -/
theorem fft_yl_getD (S : ℝ → ℝ) (t_max a dx dt : ℝ) (N : ℕ) (seed : Option ℤ) (k : ℕ)
    (j : ℕ) (hj : j < N) :
    (fftInit S t_max a dx dt N seed k).data.yl.getD j 0
      = Real.sqrt (S (dx * (j : ℝ) + a + dx / 2) * dx / Real.pi) := by
  rw [show (fftInit S t_max a dx dt N seed k).data.yl
      = (List.range N).map
          (fun j : ℕ => Real.sqrt (S (dx * (j : ℝ) + a + dx / 2) * dx / Real.pi)) from rfl]
  rw [getD_map' _ (List.range N) 0 0 j (by simpa using hj), getD_range' N j hj]

/-- Length of the sampled weighted spectral density. -/
theorem fft_yl_length (S : ℝ → ℝ) (t_max a dx dt : ℝ) (N : ℕ) (seed : Option ℤ) (k : ℕ) :
    (fftInit S t_max a dx dt N seed k).data.yl.length = N := by
  rw [show (fftInit S t_max a dx dt N seed k).data.yl
      = (List.range N).map
          (fun j : ℕ => Real.sqrt (S (dx * (j : ℝ) + a + dx / 2) * dx / Real.pi)) from rfl,
    List.length_map, List.length_range]

/-- Length of the phase-correction vector. -/
theorem fft_omc_length (S : ℝ → ℝ) (t_max a dx dt : ℝ) (N : ℕ) (seed : Option ℤ) (k : ℕ) :
    (fftInit S t_max a dx dt N seed k).data.omega_min_correction.length
      = (⌈t_max / dt⌉).toNat + 1 := by
  rw [show (fftInit S t_max a dx dt N seed k).data.omega_min_correction
      = (List.range ((⌈t_max / dt⌉).toNat + 1)).map
          (fun j : ℕ => Complex.exp (-Complex.I * (a + dx / 2)
            * (fftInit S t_max a dx dt N seed k).base.t j)) from rfl,
    List.length_map, List.length_range]

/-- On the FFT engine's grid (at least two points), the `j`-th time is
`j·dt`: the base initializer's linspace over `t_max = (ngp-1)·dt` has step
`dt`. -/
theorem fft_t_eq (S : ℝ → ℝ) (t_max a dx dt : ℝ) (N : ℕ) (seed : Option ℤ) (k : ℕ)
    (hngp2 : 2 ≤ (⌈t_max / dt⌉).toNat + 1) (j : ℕ) :
    (fftInit S t_max a dx dt N seed k).base.t j = (j : ℝ) * dt := by
  rw [show (fftInit S t_max a dx dt N seed k).base.t
      = linspace 0 (((((⌈t_max / dt⌉).toNat + 1 : ℕ) : ℝ) - 1) * dt)
          ((⌈t_max / dt⌉).toNat + 1) from rfl]
  simp only [linspace]
  have h2 : (2 : ℝ) ≤ (((⌈t_max / dt⌉).toNat + 1 : ℕ) : ℝ) := by exact_mod_cast hngp2
  have hden : ((((⌈t_max / dt⌉).toNat + 1 : ℕ) : ℝ)) - 1 ≠ 0 := by
    intro hc
    linarith
  have hc : (((⌈t_max / dt⌉).toNat : ℕ) : ℝ) ≠ 0 := by
    push_cast at hden
    simpa using hden
  field_simp
  ring

/-- The phase-correction vector of the FFT engine, entrywise:
`exp(-i·(a+dx/2)·t_j)` with `t_j = j·dt`. -/
theorem fft_omc_getD (S : ℝ → ℝ) (t_max a dx dt : ℝ) (N : ℕ) (seed : Option ℤ) (k : ℕ)
    (hngp2 : 2 ≤ (⌈t_max / dt⌉).toNat + 1) (j : ℕ) (hj : j < (⌈t_max / dt⌉).toNat + 1) :
    (fftInit S t_max a dx dt N seed k).data.omega_min_correction.getD j 0
      = Complex.exp (-Complex.I * (a + dx / 2) * ((j : ℝ) * dt)) := by
  rw [show (fftInit S t_max a dx dt N seed k).data.omega_min_correction
      = (List.range ((⌈t_max / dt⌉).toNat + 1)).map
          (fun j : ℕ => Complex.exp (-Complex.I * (a + dx / 2)
            * (fftInit S t_max a dx dt N seed k).base.t j)) from rfl]
  rw [getD_map' _ (List.range ((⌈t_max / dt⌉).toNat + 1)) 0 0 j (by simpa using hj),
    getD_range' _ j hj]
  rw [fft_t_eq S t_max a dx dt N seed k hngp2 j]
  push_cast
  ring_nf

/-- Claim C7: the FFT engine with resolved parameters `(a, dx, dt, N)`
samples `yl_j = sqrt(S(a + dx/2 + j·dx)·dx/π)`, precomputes the phase
correction `exp(-i·(a+dx/2)·t_j)` at the grid times `t_j = j·dt`, and for
an input `Y` of length `N` the realization `new_process` stores is the
first `num_grid_points` outputs of the forward discrete Fourier transform
of `yl·Y`, multiplied elementwise by that phase correction. -/
theorem C7_fft_engine (S : ℝ → ℝ) (t_max a dx dt : ℝ) (N : ℕ) (seed : Option ℤ) (k : ℕ)
    (y : List ℂ) (j : ℕ)
    (hngp2 : 2 ≤ (⌈t_max / dt⌉).toNat + 1)
    (hle : (⌈t_max / dt⌉).toNat + 1 ≤ N)
    (hy : y.length = N)
    (hj : j < (⌈t_max / dt⌉).toNat + 1) :
    ((fftInit S t_max a dx dt N seed k).data.yl.getD j 0
        = Real.sqrt (S (a + dx / 2 + (j : ℝ) * dx) * dx / Real.pi))
    ∧ ((fftInit S t_max a dx dt N seed k).data.omega_min_correction.getD j 0
        = Complex.exp (-Complex.I * (a + dx / 2) * ((j : ℝ) * dt)))
    ∧ (∃ zs, fftCZ (fftInit S t_max a dx dt N seed k) y = .ok zs
        ∧ zs.length = (⌈t_max / dt⌉).toNat + 1
        ∧ zs.getD j 0
            = (∑ m ∈ Finset.range N,
                ((fftInit S t_max a dx dt N seed k).data.yl.getD m 0 : ℂ) * y.getD m 0
                  * Complex.exp (-2 * Real.pi * Complex.I * (j : ℂ) * (m : ℂ) / (N : ℂ)))
              * Complex.exp (-Complex.I * (a + dx / 2) * ((j : ℝ) * dt))) := by
  have hylL : ((fftInit S t_max a dx dt N seed k).data.yl.map Complex.ofReal).length = N := by
    rw [List.length_map, fft_yl_length]
  have hp : npMul ((fftInit S t_max a dx dt N seed k).data.yl.map Complex.ofReal) y
      = .ok (List.zipWith (· * ·)
          ((fftInit S t_max a dx dt N seed k).data.yl.map Complex.ofReal) y) := by
    rw [npMul, if_pos (by rw [hylL, hy])]
  have hpl : (List.zipWith (· * ·)
      ((fftInit S t_max a dx dt N seed k).data.yl.map Complex.ofReal) y).length = N := by
    rw [List.length_zipWith, hylL, hy]
    exact min_self N
  have hfl : (npFFT (List.zipWith (· * ·)
      ((fftInit S t_max a dx dt N seed k).data.yl.map Complex.ofReal) y)).length = N := by
    rw [npFFT, List.length_map, List.length_range, hpl]
  have htake : (((npFFT (List.zipWith (· * ·)
      ((fftInit S t_max a dx dt N seed k).data.yl.map Complex.ofReal) y)).take
        ((⌈t_max / dt⌉).toNat + 1)).length)
      = (fftInit S t_max a dx dt N seed k).data.omega_min_correction.length := by
    rw [List.length_take, hfl, fft_omc_length]
    omega
  have hz : npMul ((npFFT (List.zipWith (· * ·)
      ((fftInit S t_max a dx dt N seed k).data.yl.map Complex.ofReal) y)).take
        ((⌈t_max / dt⌉).toNat + 1))
      (fftInit S t_max a dx dt N seed k).data.omega_min_correction
      = .ok (List.zipWith (· * ·)
          ((npFFT (List.zipWith (· * ·)
            ((fftInit S t_max a dx dt N seed k).data.yl.map Complex.ofReal) y)).take
              ((⌈t_max / dt⌉).toNat + 1))
          (fftInit S t_max a dx dt N seed k).data.omega_min_correction) := by
    rw [npMul, if_pos htake]
  refine ⟨?_, fft_omc_getD S t_max a dx dt N seed k hngp2 j hj, ?_⟩
  · rw [fft_yl_getD S t_max a dx dt N seed k j (lt_of_lt_of_le hj hle)]
    rw [show a + dx / 2 + (j : ℝ) * dx = dx * (j : ℝ) + a + dx / 2 from by ring]
  · refine ⟨List.zipWith (· * ·)
      ((npFFT (List.zipWith (· * ·)
        ((fftInit S t_max a dx dt N seed k).data.yl.map Complex.ofReal) y)).take
          ((⌈t_max / dt⌉).toNat + 1))
      (fftInit S t_max a dx dt N seed k).data.omega_min_correction, ?_, ?_, ?_⟩
    · show fftCalcZ (fftInit S t_max a dx dt N seed k).data
        (fftInit S t_max a dx dt N seed k).base.num_grid_points y = _
      rw [show (fftInit S t_max a dx dt N seed k).base.num_grid_points
          = (⌈t_max / dt⌉).toNat + 1 from rfl]
      rw [fftCalcZ]
      simp only [hp]
      exact hz
    · rw [List.length_zipWith, List.length_take, hfl, fft_omc_length]
      omega
    · rw [getD_zipWith' _ _ _ j (by rw [List.length_take, hfl]; omega)
        (by rw [fft_omc_length]; exact hj)]
      rw [getD_take' _ _ _ j hj]
      rw [npFFT, hpl]
      rw [getD_map' _ (List.range N) 0 0 j (by rw [List.length_range]; omega),
        getD_range' _ j (by omega)]
      rw [sum_map_range']
      rw [fft_omc_getD S t_max a dx dt N seed k hngp2 j hj]
      congr 1
      apply Finset.sum_congr rfl
      intro m hm
      rw [getD_zipWith' _ _ _ m (by rw [hylL]; exact Finset.mem_range.mp hm)
        (by rw [hy]; exact Finset.mem_range.mp hm)]
      rw [getD_map' Complex.ofReal _ 0 0 m (by rw [fft_yl_length]; exact Finset.mem_range.mp hm)]

theorem C7_fft_engine_witness :
    (2 ≤ (⌈(1 : ℝ) / 1⌉).toNat + 1 ∧ (⌈(1 : ℝ) / 1⌉).toNat + 1 ≤ 2
      ∧ ([1, 1] : List ℂ).length = 2 ∧ 0 < (⌈(1 : ℝ) / 1⌉).toNat + 1)
    ∧ (∃ zs, fftCZ (fftInit (fun _ => (1 : ℝ)) 1 0 1 1 2 none 3) [1, 1] = .ok zs
        ∧ zs.length = (⌈(1 : ℝ) / 1⌉).toNat + 1) := by
  have h1 : 2 ≤ (⌈(1 : ℝ) / 1⌉).toNat + 1 := by norm_num
  have h2 : (⌈(1 : ℝ) / 1⌉).toNat + 1 ≤ 2 := by norm_num
  have h3 : ([1, 1] : List ℂ).length = 2 := rfl
  have h4 : 0 < (⌈(1 : ℝ) / 1⌉).toNat + 1 := by norm_num
  obtain ⟨zs, hzs, hlen, _⟩ :=
    (C7_fft_engine (fun _ => (1 : ℝ)) 1 0 1 1 2 none 3 [1, 1] 0 h1 h2 h3 h4).2.2
  exact ⟨⟨h1, h2, h3, h4⟩, zs, hzs, hlen⟩
